import Mathlib

set_option maxHeartbeats 1000000

namespace NXlayer

/-!
Shallow embedding of the NXlayer orchestration engine (Electron main
process, `main.js` / `src/unnamed/part_001`).  Text is modelled as
`List Char`; JavaScript string primitives (`trim`, `trimStart`,
`split(/\r?\n/)`, `join('\n')`, chained `replace`) are modelled as
executable list functions.
-/

/-- Characters matched by the regex class `[\r\n]` used by the leading and
trailing trims of `normalizeTextForInjection`. -/
def isNewlineChar (c : Char) : Bool :=
  c = '\r' || c = '\n'

/-- The WhiteSpace and LineTerminator code points removed by JavaScript's
`String.prototype.trim` and `trimStart`. -/
def jsWhitespace (c : Char) : Bool :=
  c = '\t' || c = '\n' || c = '\x0b' || c = '\x0c' || c = '\r' || c = ' ' ||
  c = ' ' || c = ' ' ||
  (' ' ≤ c && c ≤ ' ') ||
  c = ' ' || c = ' ' || c = ' ' || c = ' ' ||
  c = '　' || c = '﻿'

/-- JavaScript `trimStart` on a character list. -/
def jsTrimStart (l : List Char) : List Char :=
  l.dropWhile jsWhitespace

/-- Drop the longest suffix whose characters all satisfy `p`. -/
def dropTrailingWhile (p : Char → Bool) (l : List Char) : List Char :=
  (l.reverse.dropWhile p).reverse

/-- JavaScript `trim` (both ends) on a character list. -/
def jsTrim (l : List Char) : List Char :=
  dropTrailingWhile jsWhitespace (l.dropWhile jsWhitespace)

/-- The two regex replaces `replace(/^[\r\n]+/, '')` and
`replace(/[\r\n]+$/, '')` at the start of `normalizeTextForInjection`. -/
def stripNewlineEnds (l : List Char) : List Char :=
  dropTrailingWhile isNewlineChar (l.dropWhile isNewlineChar)

/-- Prepend a character to the first block of a split result. -/
def consFirst (c : Char) : List (List Char) → List (List Char)
  | [] => [[c]]
  | l :: ls => (c :: l) :: ls

/-- Split a character list at every `'\n'`, keeping empty pieces
(the semantics of JavaScript `split('\n')`). -/
def splitOnNL : List Char → List (List Char)
  | [] => [[]]
  | c :: rest => if c = '\n' then [] :: splitOnNL rest else consFirst c (splitOnNL rest)

/-- Remove a single trailing `'\r'` if present. -/
def dropOneCR (l : List Char) : List Char :=
  if l.getLast? = some '\r' then l.dropLast else l

/-- Apply `f` to every element except the last one. -/
def mapInit {α : Type} (f : α → α) : List α → List α
  | [] => []
  | [a] => [a]
  | a :: b :: rest => f a :: mapInit f (b :: rest)

/-- JavaScript `split(/\r?\n/)`.  Every match of `/\r?\n/` is a `'\n'`
together with at most one `'\r'` directly before it, so the result is the
plain `'\n'` split with a single trailing `'\r'` removed from every piece
except the last (the last piece is not followed by a separator). -/
def splitLines (l : List Char) : List (List Char) :=
  mapInit dropOneCR (splitOnNL l)

/-- First block of a split result (empty for an empty list of blocks). -/
def firstLineOf : List (List Char) → List Char
  | [] => []
  | l :: _ => l

/-- Last block of a split result (empty for an empty list of blocks). -/
def lastLineOf : List (List Char) → List Char
  | [] => []
  | [l] => l
  | _ :: l :: ls => lastLineOf (l :: ls)

/-- JavaScript `lines.join('\n')`. -/
def joinNL : List (List Char) → List Char
  | [] => []
  | [l] => l
  | l :: ls => l ++ '\n' :: joinNL ls

/-- `normalizeTextForInjection` (main.js lines 77-90), string case: trim
leading and trailing newline runs; if the result is empty return it;
otherwise split into lines at `/\r?\n/`, strip leading whitespace from each
line, and join with `'\n'`. -/
def normalizeTextForInjection (l : List Char) : List Char :=
  let t := stripNewlineEnds l
  if t = [] then t
  else joinNL ((splitLines t).map jsTrimStart)

/-- A JavaScript value as seen by `normalizeTextForInjection`: a string or
any non-string value (tagged so distinct non-strings exist). -/
inductive JSVal where
  | str (s : List Char)
  | other (tag : Nat)
deriving DecidableEq

/-- The full `normalizeTextForInjection` including the
`typeof text !== 'string'` early return. -/
def normalizeJS : JSVal → JSVal
  | .str s => .str (normalizeTextForInjection s)
  | .other t => .other t

/-- One global-regex `replace` pass that rewrites every occurrence of the
single character `t` to the character list `r`. -/
def replAll (t : Char) (r : List Char) : List Char → List Char
  | [] => []
  | c :: cs => (if c = t then r else [c]) ++ replAll t r cs

/-- The Orchestrator's escape on the auto-inject path
(`autoInjectWithBackspace`, main.js lines 750-755): backslash, then
newline, carriage return and tab, in source order. -/
def escapeAutoInject (l : List Char) : List Char :=
  replAll '\t' ['\\', 't']
    (replAll '\r' ['\\', 'r']
      (replAll '\n' ['\\', 'n']
        (replAll '\\' ['\\', '\\'] l)))

/-- The Orchestrator's escape on the Paste-hotkey path (main.js lines
1329-1335): backslash, then double quote, newline, carriage return and
tab, in source order. -/
def escapePasteHotkey (l : List Char) : List Char :=
  replAll '\t' ['\\', 't']
    (replAll '\r' ['\\', 'r']
      (replAll '\n' ['\\', 'n']
        (replAll '"' ['\\', '"']
          (replAll '\\' ['\\', '\\'] l))))

/-- Per-character view of `escapeAutoInject`, used to reason about the
composed replace passes. -/
def escAutoChar (c : Char) : List Char :=
  if c = '\\' then ['\\', '\\']
  else if c = '\n' then ['\\', 'n']
  else if c = '\r' then ['\\', 'r']
  else if c = '\t' then ['\\', 't']
  else [c]

/-- Per-character view of `escapePasteHotkey`. -/
def escPasteChar (c : Char) : List Char :=
  if c = '\\' then ['\\', '\\']
  else if c = '"' then ['\\', '"']
  else if c = '\n' then ['\\', 'n']
  else if c = '\r' then ['\\', 'r']
  else if c = '\t' then ['\\', 't']
  else [c]

/-- Modelled from the spec: `keyboard_inject.py` is not part of the given
sources; per the spec the injector un-escapes exactly the four sequences
backslash-backslash, backslash-n, backslash-r and backslash-t before
typing, and rejects any other backslash sequence.  A left-to-right scan;
`none` is a rejected input. -/
def unescapeInjector : List Char → Option (List Char)
  | [] => some []
  | c :: rest =>
    if c = '\\' then
      match rest with
      | [] => none
      | d :: rest2 =>
        if d = '\\' then (unescapeInjector rest2).map (List.cons '\\')
        else if d = 'n' then (unescapeInjector rest2).map (List.cons '\n')
        else if d = 'r' then (unescapeInjector rest2).map (List.cons '\r')
        else if d = 't' then (unescapeInjector rest2).map (List.cons '\t')
        else none
    else (unescapeInjector rest).map (List.cons c)

/-- Escaped payload handed to the injector subprocess on the auto-inject
path: the text is normalized once, then escaped. -/
def autoInjectCommandArg (text : List Char) : List Char :=
  escapeAutoInject (normalizeTextForInjection text)

/-- Escaped payload handed to the injector on the Paste-hotkey path
(main.js lines 1330-1338): `lastGeneratedText` is escaped directly,
without any call to `normalizeTextForInjection`. -/
def pasteCommandArg (lastText : List Char) : List Char :=
  escapePasteHotkey lastText

/-! Orchestrator trigger handling. -/

/-- Trigger type reported by the keystroke monitor. -/
inductive MonitorTrigType where
  | backtick
  | extension
  | live
deriving DecidableEq

/-- Values stored in the mutable `triggerMode` variable. -/
inductive TrigMode where
  | backtick
  | extension
  | live
  | clipboard
  | screenshot
  | prompt
deriving DecidableEq

def trigModeOfMonitor : MonitorTrigType → TrigMode
  | .backtick => .backtick
  | .extension => .extension
  | .live => .live

/-- Generation modes sent to the AI backend by the three trigger paths. -/
inductive GenMode where
  | backtick
  | extension
  | clipboard
  | clipboardWithInstruction
deriving DecidableEq

/-- A request dispatched through `generateTextStreaming`: the mode, the
prompt text, and the mode-specific extra parameter. -/
structure GenRequest where
  mode : GenMode
  prompt : List Char
  extra : Option (List Char)
deriving DecidableEq

/-- The session state mutated by the trigger handlers. -/
structure OrchState where
  pendingBackspaceCount : Nat
  triggerMode : Option TrigMode
deriving DecidableEq

/-- Maximum buffer size accepted by `handleKeystrokeEvent`. -/
def MAX_BUFFER_SIZE : Nat := 10000

/-- The trigger branch of `handleKeystrokeEvent` (main.js lines 633-710):
triggers are dropped when the master switch is off, when the buffer is
blank, or when a live trigger arrives with live mode off; otherwise the
session state is set and a generation request is dispatched. -/
def handleMonitorTrigger (master liveMode : Bool) (st : OrchState)
    (t : MonitorTrigType) (buffer : List Char) (charCount : Nat)
    (lastAIOutput : Option (List Char)) : OrchState × Option GenRequest :=
  if master = false then (st, none)
  else if jsTrim buffer = [] then (st, none)
  else if t = MonitorTrigType.live ∧ liveMode = false then (st, none)
  else
    let safeBuffer := buffer.take MAX_BUFFER_SIZE
    let st2 : OrchState :=
      { pendingBackspaceCount := charCount, triggerMode := some (trigModeOfMonitor t) }
    let req : GenRequest :=
      if t = MonitorTrigType.extension ∧ lastAIOutput.getD [] ≠ [] then
        { mode := .extension, prompt := safeBuffer, extra := some (lastAIOutput.getD []) }
      else
        { mode := .backtick, prompt := safeBuffer, extra := none }
    (st2, some req)

/-- `handleClipboardTrigger` (main.js lines 1096-1130), up to the dispatch
of the generation request.  Note: this handler performs no check of the
master switch. -/
def clipTriggerStep (clip buf : List Char) (rawCount : Nat) (st : OrchState) :
    OrchState × Option GenRequest :=
  if clip = [] ∨ jsTrim clip = [] then (st, none)
  else
    let instr := jsTrim buf
    let st2 : OrchState :=
      { pendingBackspaceCount := if instr = [] then 0 else rawCount,
        triggerMode := some TrigMode.clipboard }
    if instr = [] then (st2, some { mode := .clipboard, prompt := clip, extra := none })
    else (st2, some { mode := .clipboardWithInstruction, prompt := clip, extra := some instr })

/-- `handleScreenshotTrigger` (main.js lines 968-1002): sets the session
state and shows the vision input window; no generation request yet.  No
check of the master switch. -/
def screenshotTriggerStep (_ : OrchState) : OrchState :=
  { pendingBackspaceCount := 0, triggerMode := some TrigMode.screenshot }

/-- The three kinds of incoming trigger events named by the spec's
master-switch invariant. -/
inductive InEvent where
  | monitorTrigger (t : MonitorTrigType) (buffer : List Char) (charCount : Nat)
      (lastAIOutput : Option (List Char))
  | clipboardHotkey (clip : List Char) (buffer : List Char) (rawCount : Nat)
  | screenshotHotkey
deriving DecidableEq

/-- Routing of an incoming trigger event to its handler, as wired in
main.js (`handleKeystrokeEvent`, the `Ctrl+Shift+D` registration at lines
1198-1201, and the `Ctrl+Shift+F` registration). -/
def dispatchEvent (master liveMode : Bool) (st : OrchState) :
    InEvent → OrchState × Option GenRequest
  | .monitorTrigger t b c lo => handleMonitorTrigger master liveMode st t b c lo
  | .clipboardHotkey clip buf rc => clipTriggerStep clip buf rc st
  | .screenshotHotkey => (screenshotTriggerStep st, none)

/-! AI request timeout handling. -/

/-- The `pendingAIRequest` record (main.js line 597-603). -/
structure PendingAIRequest where
  streaming : Bool
  autoInject : Bool
  text : List Char
deriving DecidableEq

/-- The fresh pending request set up by `generateTextStreaming`. -/
def initialPendingRequest (autoInject : Bool) : PendingAIRequest :=
  { streaming := true, autoInject := autoInject, text := [] }

/-- Accumulation of one streaming chunk: `pendingAIRequest.text += event.text`
(main.js line 514). -/
def applyChunkText (p : PendingAIRequest) (delta : List Char) : PendingAIRequest :=
  { p with text := p.text ++ delta }

/-- Accumulate a sequence of chunk deltas. -/
def accumulateChunks (p : PendingAIRequest) (chunks : List (List Char)) : PendingAIRequest :=
  chunks.foldl applyChunkText p

/-- Outcome of the 60-second timeout callback. -/
inductive AIOutcome where
  | resolvedText (t : List Char)
  | rejectedTimeout
deriving DecidableEq

/-- The 60-second timeout callback of `generateTextStreaming` (main.js
lines 619-629): if a request is still pending, the slot is cleared and the
request resolves with the accumulated text when that text is nonempty,
otherwise it is rejected with a timeout error. -/
def timeoutFire (pending : Option PendingAIRequest) :
    Option PendingAIRequest × Option AIOutcome :=
  match pending with
  | none => (none, none)
  | some p => (none, if p.text = [] then some .rejectedTimeout else some (.resolvedText p.text))

/-! Injection fallback handling. -/

/-- Whether the `clipboard.writeText` call succeeds or throws. -/
inductive ClipWrite where
  | ok
  | throws (msg : String)
deriving DecidableEq

/-- The object resolved back to the caller of an injection. -/
structure InjectResult where
  success : Bool
  method : Option String
  errMsg : Option String
deriving DecidableEq

/-- The observable outcome of an injection attempt: the resolved result (or
`none` when the promise is never resolved), the text written to the
clipboard if any, and whether a Ctrl+V paste keystroke was synthesized. -/
structure InjectOutcome where
  result : Option InjectResult
  clipboardWritten : Option (List Char)
  pasteKeySent : Bool
deriving DecidableEq

/-- The `close` handler of `autoInjectWithBackspace` (main.js lines
771-790): nonzero exit falls back to the clipboard, synthesizing Ctrl+V
when `robotjs` is available; a throwing clipboard write resolves failure
carrying the clipboard error's message. -/
def autoInjectFinish (text : List Char) (code : Int) (clip : ClipWrite)
    (robotAvail : Bool) : InjectOutcome :=
  if code ≠ 0 then
    match clip with
    | .ok =>
      if robotAvail then
        { result := some { success := true, method := some "clipboard-fallback", errMsg := none },
          clipboardWritten := some text, pasteKeySent := true }
      else
        { result := some { success := true, method := some "clipboard-only", errMsg := none },
          clipboardWritten := some text, pasteKeySent := false }
    | .throws m =>
      { result := some { success := false, method := none, errMsg := some m },
        clipboardWritten := none, pasteKeySent := false }
  else
    { result := some { success := true, method := some "python-inject", errMsg := none },
      clipboardWritten := none, pasteKeySent := false }

/-- The `error` handler of `autoInjectWithBackspace` (main.js lines
792-796): the clipboard write is not guarded, so a throwing write escapes
the callback and the promise is never resolved. -/
def autoInjectSpawnError (text : List Char) (clip : ClipWrite) : InjectOutcome :=
  match clip with
  | .ok =>
    { result := some { success := true, method := some "clipboard-fallback", errMsg := none },
      clipboardWritten := some text, pasteKeySent := false }
  | .throws _ =>
    { result := none, clipboardWritten := none, pasteKeySent := false }

/-- The exec callback of the `inject-text` IPC handler (main.js lines
1866-1887). -/
def injectTextFinish (text : List Char) (isError : Bool) (clip : ClipWrite)
    (robotAvail : Bool) : InjectOutcome :=
  if isError then
    match clip with
    | .ok =>
      if robotAvail then
        { result := some { success := true, method := some "clipboard-fallback", errMsg := none },
          clipboardWritten := some text, pasteKeySent := true }
      else
        { result := some { success := true, method := some "clipboard", errMsg := none },
          clipboardWritten := some text, pasteKeySent := false }
    | .throws m =>
      { result := some { success := false, method := none, errMsg := some m },
        clipboardWritten := none, pasteKeySent := false }
  else
    { result := some { success := true, method := some "keyboard-inject", errMsg := none },
      clipboardWritten := none, pasteKeySent := false }

/-! Child process supervision. -/

/-- `MONITOR_RESTART_DELAY` (main.js line 72), in milliseconds. -/
def MONITOR_RESTART_DELAY : Nat := 2000

/-- `MONITOR_MAX_RESTARTS` (main.js line 73). -/
def MONITOR_MAX_RESTARTS : Nat := 5

/-- Restart bookkeeping for the keystroke monitor. -/
structure SupervisorState where
  restartCount : Nat
deriving DecidableEq

/-- The `close` handler of the keystroke monitor (main.js lines 382-397):
returns the new state and the scheduled restart delay, if any. -/
def monitorCloseStep (master : Bool) (code : Int) (s : SupervisorState) :
    SupervisorState × Option Nat :=
  if master = true ∧ code ≠ 0 ∧ s.restartCount < MONITOR_MAX_RESTARTS then
    ({ restartCount := s.restartCount + 1 }, some MONITOR_RESTART_DELAY)
  else (s, none)

/-- The tail of `startKeystrokeMonitor` (main.js line 404): the restart
counter is set to 0 as soon as the start routine runs, on every start. -/
def monitorStartStep (_ : SupervisorState) : SupervisorState :=
  { restartCount := 0 }

/-- One crash-and-restart cycle: the close handler fires and, if a restart
is scheduled, `startKeystrokeMonitor` runs after the delay. -/
def monitorCrashCycle (master : Bool) (code : Int) (s : SupervisorState) :
    SupervisorState × Option Nat :=
  let step := monitorCloseStep master code s
  match step.2 with
  | some d => (monitorStartStep step.1, some d)
  | none => (step.1, none)

/-- Run the monitor supervisor through a sequence of exit codes,
collecting the restart delays.  When no restart is scheduled the child
stays dead and no further exits occur. -/
def monitorRun (master : Bool) : List Int → SupervisorState → SupervisorState × List Nat
  | [], s => (s, [])
  | code :: codes, s =>
    let cyc := monitorCrashCycle master code s
    match cyc.2 with
    | some d =>
      let rest := monitorRun master codes cyc.1
      (rest.1, d :: rest.2)
    | none => (cyc.1, [])

/-- The `close` handler of the AI backend (main.js lines 477-488): restart
after a fixed 2000 ms whenever the master switch is on and the exit code
is nonzero; there is no restart counter at all. -/
def aiBackendCloseStep (master : Bool) (code : Int) : Option Nat :=
  if master = true ∧ code ≠ 0 then some 2000 else none

/-! Escape key handling and the Paste hotkey gate. -/

/-- The mutable application state touched by the Escape handler. -/
structure AppState where
  lastGeneratedText : List Char
  lastGeneratedExplanation : List Char
  pendingBackspaceCount : Nat
  triggerMode : Option TrigMode
  outputWindowVisible : Bool
  explanationWindowVisible : Bool
  mainWindowVisible : Bool
  humanizeTyping : Bool
  autoInjectEnabled : Bool
  masterEnabled : Bool
  liveModeEnabled : Bool
  codingModeEnabled : Bool
  ultraHumanEnabled : Bool
deriving DecidableEq

/-- Side effects a handler can emit. -/
inductive UIAction where
  | hideOutputWindow
  | hideExplanationWindow
  | clearPromptInput
  | injectText (t : List Char)
deriving DecidableEq

/-- The Escape keydown handler (main.js lines 1411-1429): hide the popup
windows, clear the generated text and explanation, zero the backspace
count, clear the trigger mode, and clear the prompt input.  No injection
is performed and no user preference is touched. -/
def escapeKeydownStep (st : AppState) : AppState × List UIAction :=
  ({ st with
      outputWindowVisible := false
      explanationWindowVisible := false
      lastGeneratedText := []
      lastGeneratedExplanation := []
      pendingBackspaceCount := 0
      triggerMode := none },
   (if st.outputWindowVisible then [UIAction.hideOutputWindow] else []) ++
     [UIAction.hideExplanationWindow, UIAction.clearPromptInput])

/-- The guard of the Paste hotkey (main.js line 1237): the handler injects
only when `lastGeneratedText` is nonempty, and it injects that text. -/
def pasteShortcutAction (st : AppState) : Option (List Char) :=
  if st.lastGeneratedText = [] then none else some st.lastGeneratedText

/-! Popup positioning. -/

/-- A display work area as reported by Electron. -/
structure WorkArea where
  x : Int
  y : Int
  width : Int
  height : Int
deriving DecidableEq

/-- The popup placement computation shared by `showOutputWindowAtCursor`
(main.js lines 858-883) and the `show-inline-suggestion` handler (lines
1582-1617): start at `(cursor.x, cursor.y + 20)`, flip above the pointer
when the bottom of the work area would be crossed, shift left when the
right edge would be crossed, then clamp both coordinates from below.
`Math.round` is the identity on these integer inputs and is omitted. -/
def popupPosition (cx cy : Int) (wa : WorkArea) (pw ph : Int) : Int × Int :=
  let y0 := cy + 20
  let y1 := if y0 + ph > wa.y + wa.height then cy - ph - 5 else y0
  let x1 := if cx + pw > wa.x + wa.width then wa.x + wa.width - pw - 10 else cx
  (max wa.x x1, max wa.y y1)

/-! Lemmas about the escape passes and the injector un-escape. -/

theorem replAll_append (t : Char) (r : List Char) (a b : List Char) :
    replAll t r (a ++ b) = replAll t r a ++ replAll t r b := by
  induction a with
  | nil => simp [replAll]
  | cons c cs ih => simp [replAll, ih]

theorem escapeAutoInject_cons (c : Char) (l : List Char) :
    escapeAutoInject (c :: l) = escAutoChar c ++ escapeAutoInject l := by
  by_cases h1 : c = '\\'
  · subst h1; simp [escapeAutoInject, replAll, replAll_append, escAutoChar]
  · by_cases h2 : c = '\n'
    · subst h2; simp [escapeAutoInject, replAll, replAll_append, escAutoChar]
    · by_cases h3 : c = '\r'
      · subst h3; simp [escapeAutoInject, replAll, replAll_append, escAutoChar]
      · by_cases h4 : c = '\t'
        · subst h4; simp [escapeAutoInject, replAll, replAll_append, escAutoChar]
        · simp [escapeAutoInject, replAll, replAll_append, escAutoChar, h1, h2, h3, h4]

theorem escapePasteHotkey_cons (c : Char) (l : List Char) :
    escapePasteHotkey (c :: l) = escPasteChar c ++ escapePasteHotkey l := by
  by_cases h1 : c = '\\'
  · subst h1; simp [escapePasteHotkey, replAll, replAll_append, escPasteChar]
  · by_cases h2 : c = '"'
    · subst h2; simp [escapePasteHotkey, replAll, replAll_append, escPasteChar]
    · by_cases h3 : c = '\n'
      · subst h3; simp [escapePasteHotkey, replAll, replAll_append, escPasteChar]
      · by_cases h4 : c = '\r'
        · subst h4; simp [escapePasteHotkey, replAll, replAll_append, escPasteChar]
        · by_cases h5 : c = '\t'
          · subst h5; simp [escapePasteHotkey, replAll, replAll_append, escPasteChar]
          · simp [escapePasteHotkey, replAll, replAll_append, escPasteChar,
              h1, h2, h3, h4, h5]

theorem unescape_escapeAutoInject (l : List Char) :
    unescapeInjector (escapeAutoInject l) = some l := by
  induction l with
  | nil => rfl
  | cons c cs ih =>
    rw [escapeAutoInject_cons]
    by_cases h1 : c = '\\'
    · subst h1; simp [escAutoChar, unescapeInjector, ih]
    · by_cases h2 : c = '\n'
      · subst h2; simp [escAutoChar, unescapeInjector, ih]
      · by_cases h3 : c = '\r'
        · subst h3; simp [escAutoChar, unescapeInjector, ih]
        · by_cases h4 : c = '\t'
          · subst h4; simp [escAutoChar, unescapeInjector, ih]
          · rw [show escAutoChar c = [c] by simp [escAutoChar, h1, h2, h3, h4]]
            rw [List.singleton_append, unescapeInjector.eq_def]
            simp [h1, ih]

theorem unescape_escapePasteHotkey (l : List Char) (hq : '"' ∉ l) :
    unescapeInjector (escapePasteHotkey l) = some l := by
  induction l with
  | nil => rfl
  | cons c cs ih =>
    have hc : c ≠ '"' := fun h => hq (h ▸ List.mem_cons_self c cs)
    have hcs : '"' ∉ cs := fun h => hq (List.mem_cons_of_mem c h)
    rw [escapePasteHotkey_cons]
    by_cases h1 : c = '\\'
    · subst h1; simp [escPasteChar, unescapeInjector, ih hcs]
    · by_cases h3 : c = '\n'
      · subst h3; simp [escPasteChar, hc, unescapeInjector, ih hcs]
      · by_cases h4 : c = '\r'
        · subst h4; simp [escPasteChar, hc, unescapeInjector, ih hcs]
        · by_cases h5 : c = '\t'
          · subst h5; simp [escPasteChar, hc, unescapeInjector, ih hcs]
          · rw [show escPasteChar c = [c] by simp [escPasteChar, h1, hc, h3, h4, h5]]
            rw [List.singleton_append, unescapeInjector.eq_def]
            simp [h1, ih hcs]

/-! Lemmas about line splitting, joining and trimming. -/

theorem consFirst_ne_nil (c : Char) (ls : List (List Char)) : consFirst c ls ≠ [] := by
  cases ls <;> simp [consFirst]

theorem splitOnNL_ne_nil (l : List Char) : splitOnNL l ≠ [] := by
  cases l with
  | nil => simp [splitOnNL]
  | cons c rest =>
    by_cases h : c = '\n'
    · simp [splitOnNL, h]
    · simp [splitOnNL, h, consFirst_ne_nil]

theorem mem_of_mem_splitOnNL (c : Char) (line l : List Char)
    (hline : line ∈ splitOnNL l) (hc : c ∈ line) : c ∈ l := by
  induction l generalizing line with
  | nil =>
    simp [splitOnNL] at hline
    subst hline
    exact absurd hc (List.not_mem_nil c)
  | cons a rest ih =>
    by_cases h : a = '\n'
    · rw [splitOnNL, if_pos h] at hline
      rcases List.mem_cons.mp hline with h1 | h1
      · subst h1; exact absurd hc (List.not_mem_nil c)
      · exact List.mem_cons_of_mem a (ih line h1 hc)
    · rw [splitOnNL, if_neg h] at hline
      obtain ⟨l0, ls, hrest⟩ : ∃ l0 ls, splitOnNL rest = l0 :: ls := by
        cases hs : splitOnNL rest with
        | nil => exact absurd hs (splitOnNL_ne_nil rest)
        | cons l0 ls => exact ⟨l0, ls, rfl⟩
      rw [hrest] at hline
      simp [consFirst] at hline
      rcases hline with h1 | h1
      · subst h1
        rcases List.mem_cons.mp hc with h2 | h2
        · exact h2 ▸ List.mem_cons_self a rest
        · exact List.mem_cons_of_mem a (ih l0 (hrest ▸ List.mem_cons_self l0 ls) h2)
      · exact List.mem_cons_of_mem a (ih line (hrest ▸ List.mem_cons_of_mem l0 h1) hc)

theorem not_newline_mem_splitOnNL (line l : List Char)
    (hline : line ∈ splitOnNL l) : '\n' ∉ line := by
  induction l generalizing line with
  | nil =>
    simp [splitOnNL] at hline
    subst hline
    exact List.not_mem_nil _
  | cons a rest ih =>
    by_cases h : a = '\n'
    · rw [splitOnNL, if_pos h] at hline
      rcases List.mem_cons.mp hline with h1 | h1
      · subst h1; exact List.not_mem_nil _
      · exact ih line h1
    · rw [splitOnNL, if_neg h] at hline
      obtain ⟨l0, ls, hrest⟩ : ∃ l0 ls, splitOnNL rest = l0 :: ls := by
        cases hs : splitOnNL rest with
        | nil => exact absurd hs (splitOnNL_ne_nil rest)
        | cons l0 ls => exact ⟨l0, ls, rfl⟩
      rw [hrest] at hline
      simp [consFirst] at hline
      rcases hline with h1 | h1
      · subst h1
        intro hmem
        rcases List.mem_cons.mp hmem with h2 | h2
        · exact h (h2.symm)
        · exact ih l0 (hrest ▸ List.mem_cons_self l0 ls) h2
      · exact ih line (hrest ▸ List.mem_cons_of_mem l0 h1)

theorem splitOnNL_of_no_newline (l : List Char) (h : '\n' ∉ l) : splitOnNL l = [l] := by
  induction l with
  | nil => rfl
  | cons c rest ih =>
    have hc : c ≠ '\n' := fun hh => h (hh ▸ List.mem_cons_self c rest)
    have hr : '\n' ∉ rest := fun hh => h (List.mem_cons_of_mem c hh)
    rw [splitOnNL, if_neg hc, ih hr]
    rfl

theorem splitOnNL_append_newline (l xs : List Char) (h : '\n' ∉ l) :
    splitOnNL (l ++ '\n' :: xs) = l :: splitOnNL xs := by
  induction l with
  | nil => simp [splitOnNL]
  | cons c rest ih =>
    have hc : c ≠ '\n' := fun hh => h (hh ▸ List.mem_cons_self c rest)
    have hr : '\n' ∉ rest := fun hh => h (List.mem_cons_of_mem c hh)
    rw [List.cons_append, splitOnNL, if_neg hc, ih hr]
    rfl

theorem splitOnNL_joinNL (ls : List (List Char)) (hne : ls ≠ [])
    (h : ∀ l ∈ ls, '\n' ∉ l) : splitOnNL (joinNL ls) = ls := by
  induction ls with
  | nil => exact absurd rfl hne
  | cons l rest ih =>
    cases rest with
    | nil => exact splitOnNL_of_no_newline l (h l (List.mem_cons_self l []))
    | cons l2 rest2 =>
      have hj : joinNL (l :: l2 :: rest2) = l ++ '\n' :: joinNL (l2 :: rest2) := rfl
      rw [hj, splitOnNL_append_newline l _ (h l (List.mem_cons_self l _))]
      rw [ih (List.cons_ne_nil l2 rest2) (fun x hx => h x (List.mem_cons_of_mem l hx))]

theorem dropWhile_head_false (p : Char → Bool) (l : List Char) (c : Char)
    (rest : List Char) (h : l.dropWhile p = c :: rest) : p c = false := by
  induction l with
  | nil => simp [List.dropWhile] at h
  | cons a as ih =>
    by_cases ha : p a
    · rw [List.dropWhile_cons, if_pos ha] at h
      exact ih h
    · rw [List.dropWhile_cons, if_neg ha] at h
      injection h with h1 _
      rw [← h1]
      simp at ha
      simp [ha]

theorem dropWhile_eq_self_of_head (p : Char → Bool) (l : List Char)
    (h : ∀ c rest, l = c :: rest → p c = false) : l.dropWhile p = l := by
  cases l with
  | nil => rfl
  | cons c rest => rw [List.dropWhile_cons, if_neg (by simp [h c rest rfl])]

theorem dropWhile_eq_self_of_all (p : Char → Bool) (l : List Char)
    (h : ∀ c ∈ l, p c = false) : l.dropWhile p = l := by
  apply dropWhile_eq_self_of_head
  intro c rest hl
  exact h c (hl ▸ List.mem_cons_self c rest)

theorem dropWhile_idem (p : Char → Bool) (l : List Char) :
    (l.dropWhile p).dropWhile p = l.dropWhile p := by
  cases hd : l.dropWhile p with
  | nil => rfl
  | cons c rest =>
    rw [List.dropWhile_cons, if_neg (by simp [dropWhile_head_false p l c rest hd])]

theorem mem_of_mem_dropWhile (p : Char → Bool) (c : Char) (l : List Char)
    (h : c ∈ l.dropWhile p) : c ∈ l := by
  induction l with
  | nil => exact h
  | cons a as ih =>
    by_cases ha : p a
    · rw [List.dropWhile_cons, if_pos ha] at h
      exact List.mem_cons_of_mem a (ih h)
    · rwa [List.dropWhile_cons, if_neg ha] at h

theorem mem_of_mem_dropTrailingWhile (p : Char → Bool) (c : Char) (l : List Char)
    (h : c ∈ dropTrailingWhile p l) : c ∈ l := by
  unfold dropTrailingWhile at h
  rw [List.mem_reverse] at h
  exact List.mem_reverse.mp (mem_of_mem_dropWhile p c l.reverse h)

theorem mem_of_mem_stripNewlineEnds (c : Char) (l : List Char)
    (h : c ∈ stripNewlineEnds l) : c ∈ l := by
  unfold stripNewlineEnds at h
  exact mem_of_mem_dropWhile _ c l (mem_of_mem_dropTrailingWhile _ c _ h)

theorem dropTrailingWhile_eq_self_of_rev_head (p : Char → Bool) (l : List Char)
    (h : ∀ c rest, l.reverse = c :: rest → p c = false) :
    dropTrailingWhile p l = l := by
  unfold dropTrailingWhile
  rw [dropWhile_eq_self_of_head p l.reverse h, List.reverse_reverse]

theorem dropTrailingWhile_eq_self_of_all (p : Char → Bool) (l : List Char)
    (h : ∀ c ∈ l, p c = false) : dropTrailingWhile p l = l := by
  apply dropTrailingWhile_eq_self_of_rev_head
  intro c rest hl
  exact h c (List.mem_reverse.mp (hl ▸ List.mem_cons_self c rest))

theorem dropTrailingWhile_fixed_rev (p : Char → Bool) (l : List Char)
    (h : dropTrailingWhile p l = l) : l.reverse.dropWhile p = l.reverse := by
  have := congrArg List.reverse h
  rwa [dropTrailingWhile, List.reverse_reverse] at this

theorem dropTrailingWhile_append_of_fixed (p : Char → Bool) (a b : List Char)
    (hb : b ≠ []) (hfix : dropTrailingWhile p b = b) :
    dropTrailingWhile p (a ++ b) = a ++ b := by
  apply dropTrailingWhile_eq_self_of_rev_head
  intro c rest h
  have hrev : b.reverse.dropWhile p = b.reverse := dropTrailingWhile_fixed_rev p b hfix
  obtain ⟨c0, r0, hb0⟩ : ∃ c0 r0, b.reverse = c0 :: r0 := by
    cases hbr : b.reverse with
    | nil => exact absurd (by simpa using congrArg List.reverse hbr) hb
    | cons c0 r0 => exact ⟨c0, r0, rfl⟩
  have hp0 : p c0 = false := dropWhile_head_false p b.reverse c0 r0 (hb0 ▸ hrev)
  rw [List.reverse_append, hb0] at h
  rw [List.cons_append] at h
  have : c = c0 := ((List.cons.injEq _ _ _ _).mp h).1.symm
  rw [this]
  exact hp0

theorem joinNL_cons_cons (l l2 : List Char) (rest : List (List Char)) :
    joinNL (l :: l2 :: rest) = l ++ '\n' :: joinNL (l2 :: rest) := rfl

theorem head_append_of_ne_nil (a b : List Char) (ha : a ≠ []) :
    (a ++ b).head? = a.head? := by
  cases a with
  | nil => exact absurd rfl ha
  | cons c rest => rfl

theorem head?_joinNL (l : List Char) (rest : List (List Char)) (hl : l ≠ []) :
    (joinNL (l :: rest)).head? = l.head? := by
  cases rest with
  | nil => rfl
  | cons l2 rest2 => rw [joinNL_cons_cons, head_append_of_ne_nil _ _ hl]

theorem joinNL_ne_nil (l : List Char) (rest : List (List Char)) (hl : l ≠ []) :
    joinNL (l :: rest) ≠ [] := by
  cases rest with
  | nil => exact hl
  | cons l2 rest2 => rw [joinNL_cons_cons]; simp

theorem lastLineOf_cons_cons (l l2 : List Char) (rest : List (List Char)) :
    lastLineOf (l :: l2 :: rest) = lastLineOf (l2 :: rest) := rfl

theorem lastLineOf_mem (ls : List (List Char)) (h : ls ≠ []) : lastLineOf ls ∈ ls := by
  induction ls with
  | nil => exact absurd rfl h
  | cons l rest ih =>
    cases rest with
    | nil => exact List.mem_cons_self _ _
    | cons l2 rest2 =>
      rw [lastLineOf_cons_cons]
      exact List.mem_cons_of_mem l (ih (by simp))

theorem lastLineOf_map (f : List Char → List Char) (ls : List (List Char)) (h : ls ≠ []) :
    lastLineOf (ls.map f) = f (lastLineOf ls) := by
  induction ls with
  | nil => exact absurd rfl h
  | cons l rest ih =>
    cases rest with
    | nil => rfl
    | cons l2 rest2 =>
      rw [List.map_cons, List.map_cons, lastLineOf_cons_cons, lastLineOf_cons_cons,
        ← List.map_cons]
      exact ih (by simp)

theorem dropTrailingWhile_joinNL (p : Char → Bool) (ls : List (List Char))
    (hne : ls ≠ []) (hlast : lastLineOf ls ≠ [])
    (hfix : dropTrailingWhile p (lastLineOf ls) = lastLineOf ls) :
    dropTrailingWhile p (joinNL ls) = joinNL ls ∧ joinNL ls ≠ [] := by
  induction ls with
  | nil => exact absurd rfl hne
  | cons l rest ih =>
    cases rest with
    | nil => exact ⟨hfix, hlast⟩
    | cons l2 rest2 =>
      rw [lastLineOf_cons_cons] at hlast hfix
      obtain ⟨ihfix, ihne⟩ := ih (by simp) hlast hfix
      rw [joinNL_cons_cons]
      constructor
      · apply dropTrailingWhile_append_of_fixed p l _ (by simp)
        have : ('\n' :: joinNL (l2 :: rest2)) = ['\n'] ++ joinNL (l2 :: rest2) := rfl
        rw [this]
        exact dropTrailingWhile_append_of_fixed p ['\n'] _ ihne ihfix
      · simp

theorem mem_joinNL (c : Char) (ls : List (List Char)) (h : c ∈ joinNL ls) :
    c = '\n' ∨ ∃ l ∈ ls, c ∈ l := by
  induction ls with
  | nil => simp [joinNL] at h
  | cons l rest ih =>
    cases rest with
    | nil =>
      right
      exact ⟨l, List.mem_cons_self l [], h⟩
    | cons l2 rest2 =>
      rw [joinNL_cons_cons] at h
      rcases List.mem_append.mp h with h1 | h1
      · right; exact ⟨l, List.mem_cons_self l _, h1⟩
      · rcases List.mem_cons.mp h1 with h2 | h2
        · left; exact h2
        · rcases ih h2 with h3 | ⟨l3, hl3, hc3⟩
          · left; exact h3
          · right; exact ⟨l3, List.mem_cons_of_mem l hl3, hc3⟩

theorem mapInit_eq_self {α : Type} (f : α → α) (ls : List α)
    (h : ∀ a ∈ ls, f a = a) : mapInit f ls = ls := by
  induction ls with
  | nil => rfl
  | cons a rest ih =>
    cases rest with
    | nil => rfl
    | cons b rest2 =>
      rw [mapInit, h a (List.mem_cons_self a _)]
      rw [ih (fun x hx => h x (List.mem_cons_of_mem a hx))]

theorem getLast?_mem_list (l : List Char) (c : Char) (h : l.getLast? = some c) : c ∈ l := by
  induction l with
  | nil => simp at h
  | cons a rest ih =>
    cases rest with
    | nil =>
      simp [List.getLast?] at h
      exact h ▸ List.mem_cons_self a []
    | cons b rest2 =>
      rw [List.getLast?_cons_cons] at h
      exact List.mem_cons_of_mem a (ih h)

theorem dropOneCR_eq_self (l : List Char) (h : '\r' ∉ l) : dropOneCR l = l := by
  unfold dropOneCR
  rw [if_neg]
  intro hc
  exact h (getLast?_mem_list l '\r' hc)

theorem splitLines_eq_splitOnNL (l : List Char) (h : '\r' ∉ l) :
    splitLines l = splitOnNL l := by
  unfold splitLines
  apply mapInit_eq_self
  intro line hline
  apply dropOneCR_eq_self
  intro hc
  exact h (mem_of_mem_splitOnNL '\r' line l hline hc)

theorem map_jsTrimStart_idem (ls : List (List Char)) :
    (ls.map jsTrimStart).map jsTrimStart = ls.map jsTrimStart := by
  induction ls with
  | nil => rfl
  | cons l rest ih => simp [jsTrimStart, dropWhile_idem, ih]

theorem jsWhitespace_of_newline (c : Char) (h : isNewlineChar c = true) :
    jsWhitespace c = true := by
  have h2 : c = '\r' ∨ c = '\n' := by simpa [isNewlineChar] using h
  rcases h2 with h1 | h1 <;> (rw [h1]; decide)

theorem head?_eq_cons (l : List Char) (c : Char) (h : l.head? = some c) :
    ∃ tail, l = c :: tail := by
  cases l with
  | nil => simp at h
  | cons a tail =>
    simp at h
    exact ⟨tail, by rw [h]⟩

theorem firstLineOf_cons (l : List Char) (rest : List (List Char)) :
    firstLineOf (l :: rest) = l := rfl

/-- Core fixed-point fact: a join of lines that are already trim-fixed, are
free of newline characters, and whose first and last lines are nonempty is
left unchanged by `normalizeTextForInjection`. -/
theorem normalize_fixes_joined (lines0 : List (List Char))
    (hne : lines0 ≠ [])
    (hclean : ∀ line ∈ lines0, '\n' ∉ line ∧ '\r' ∉ line)
    (hfirst : jsTrimStart (firstLineOf lines0) ≠ [])
    (hlast : jsTrimStart (lastLineOf lines0) ≠ []) :
    normalizeTextForInjection (joinNL (lines0.map jsTrimStart)) =
      joinNL (lines0.map jsTrimStart) := by
  obtain ⟨l0, rest, hlines⟩ : ∃ l0 rest, lines0 = l0 :: rest := by
    cases lines0 with
    | nil => exact absurd rfl hne
    | cons a b => exact ⟨a, b, rfl⟩
  subst hlines
  rw [firstLineOf_cons] at hfirst
  have hmapcons : (l0 :: rest).map jsTrimStart = jsTrimStart l0 :: rest.map jsTrimStart :=
    List.map_cons jsTrimStart l0 rest
  have hhead : (joinNL ((l0 :: rest).map jsTrimStart)).head? = (jsTrimStart l0).head? := by
    rw [hmapcons]
    exact head?_joinNL _ _ hfirst
  have hune : joinNL ((l0 :: rest).map jsTrimStart) ≠ [] := by
    rw [hmapcons]
    exact joinNL_ne_nil _ _ hfirst
  have hwhead : ∀ c r2, joinNL ((l0 :: rest).map jsTrimStart) = c :: r2 →
      jsWhitespace c = false := by
    intro c r2 hu
    have hc : (jsTrimStart l0).head? = some c := by rw [← hhead, hu]; rfl
    obtain ⟨tail, htail⟩ := head?_eq_cons _ c hc
    exact dropWhile_head_false jsWhitespace l0 c tail htail
  have hnlhead : ∀ c r2, joinNL ((l0 :: rest).map jsTrimStart) = c :: r2 →
      isNewlineChar c = false := by
    intro c r2 hu
    cases hnl : isNewlineChar c with
    | false => rfl
    | true => exact absurd (jsWhitespace_of_newline c hnl) (by simp [hwhead c r2 hu])
  have hdw : (joinNL ((l0 :: rest).map jsTrimStart)).dropWhile isNewlineChar =
      joinNL ((l0 :: rest).map jsTrimStart) :=
    dropWhile_eq_self_of_head _ _ hnlhead
  have hlastmap : lastLineOf ((l0 :: rest).map jsTrimStart) =
      jsTrimStart (lastLineOf (l0 :: rest)) :=
    lastLineOf_map jsTrimStart (l0 :: rest) (List.cons_ne_nil l0 rest)
  have hlastne : lastLineOf ((l0 :: rest).map jsTrimStart) ≠ [] := by
    rw [hlastmap]; exact hlast
  have hlastfix : dropTrailingWhile isNewlineChar (lastLineOf ((l0 :: rest).map jsTrimStart)) =
      lastLineOf ((l0 :: rest).map jsTrimStart) := by
    apply dropTrailingWhile_eq_self_of_all
    intro c hc
    rw [hlastmap] at hc
    have hcline : c ∈ lastLineOf (l0 :: rest) := mem_of_mem_dropWhile jsWhitespace c _ hc
    have hmem := hclean (lastLineOf (l0 :: rest)) (lastLineOf_mem _ (List.cons_ne_nil l0 rest))
    have hn : c ≠ '\n' := fun hh => hmem.1 (hh ▸ hcline)
    have hrr : c ≠ '\r' := fun hh => hmem.2 (hh ▸ hcline)
    simp [isNewlineChar, hn, hrr]
  obtain ⟨hdt, _⟩ := dropTrailingWhile_joinNL isNewlineChar ((l0 :: rest).map jsTrimStart)
    (by simp) hlastne hlastfix
  have hstrip : stripNewlineEnds (joinNL ((l0 :: rest).map jsTrimStart)) =
      joinNL ((l0 :: rest).map jsTrimStart) := by
    unfold stripNewlineEnds
    rw [hdw, hdt]
  have hclean2 : ∀ c ∈ joinNL ((l0 :: rest).map jsTrimStart), c = '\n' ∨
      ∃ line ∈ l0 :: rest, c ∈ line := by
    intro c hc
    rcases mem_joinNL c _ hc with h1 | ⟨l2, hl2, hc2⟩
    · left; exact h1
    · obtain ⟨line, hline, hmap⟩ := List.mem_map.mp hl2
      right
      rw [← hmap] at hc2
      exact ⟨line, hline, mem_of_mem_dropWhile jsWhitespace c line hc2⟩
  have hrnotin : '\r' ∉ joinNL ((l0 :: rest).map jsTrimStart) := by
    intro hm
    rcases hclean2 '\r' hm with h1 | ⟨line, hline, hc⟩
    · exact absurd h1 (by decide)
    · exact (hclean line hline).2 hc
  have hnuline : ∀ l2 ∈ (l0 :: rest).map jsTrimStart, '\n' ∉ l2 := by
    intro l2 hl2 hm
    obtain ⟨line, hline, hmap⟩ := List.mem_map.mp hl2
    rw [← hmap] at hm
    exact (hclean line hline).1 (mem_of_mem_dropWhile jsWhitespace '\n' line hm)
  have hsplitu : splitLines (joinNL ((l0 :: rest).map jsTrimStart)) =
      (l0 :: rest).map jsTrimStart := by
    rw [splitLines_eq_splitOnNL _ hrnotin]
    exact splitOnNL_joinNL _ (by simp) hnuline
  simp only [normalizeTextForInjection]
  rw [hstrip, if_neg hune, hsplitu, map_jsTrimStart_idem]

/-- Restricted idempotence of `normalizeTextForInjection`: on strings
without carriage returns whose first and last split lines do not trim to
nothing, a second application changes nothing. -/
theorem normalize_idem_restricted (s : List Char) (hr : '\r' ∉ s)
    (hfirst : jsTrimStart (firstLineOf (splitLines (stripNewlineEnds s))) ≠ [])
    (hlast : jsTrimStart (lastLineOf (splitLines (stripNewlineEnds s))) ≠ []) :
    normalizeTextForInjection (normalizeTextForInjection s) =
      normalizeTextForInjection s := by
  by_cases ht : stripNewlineEnds s = []
  · have h0 : normalizeTextForInjection s = [] := by
      simp [normalizeTextForInjection, ht]
    rw [h0]
    rfl
  · have hrt : '\r' ∉ stripNewlineEnds s :=
      fun hm => hr (mem_of_mem_stripNewlineEnds '\r' s hm)
    have hsplit : splitLines (stripNewlineEnds s) = splitOnNL (stripNewlineEnds s) :=
      splitLines_eq_splitOnNL _ hrt
    rw [hsplit] at hfirst hlast
    have hclean : ∀ line ∈ splitOnNL (stripNewlineEnds s), '\n' ∉ line ∧ '\r' ∉ line := by
      intro line hline
      constructor
      · exact not_newline_mem_splitOnNL line _ hline
      · intro hc
        exact hrt (mem_of_mem_splitOnNL '\r' line _ hline hc)
    have hnorm : normalizeTextForInjection s =
        joinNL ((splitOnNL (stripNewlineEnds s)).map jsTrimStart) := by
      simp only [normalizeTextForInjection]
      rw [if_neg ht, hsplit]
    rw [hnorm]
    exact normalize_fixes_joined _ (splitOnNL_ne_nil _) hclean hfirst hlast

/-! Claim theorems. -/

/-- C1, counterexample: with the master switch off, the Clipboard hotkey
still dispatches a `clipboard` generation request and overwrites the
session state (pending backspace count and trigger mode), contradicting
the claim that no trigger event reaches the Orchestrator. -/
theorem c1_counterexample :
    dispatchEvent false false { pendingBackspaceCount := 3, triggerMode := none }
        (InEvent.clipboardHotkey ("hello".toList) [] 0) =
      ({ pendingBackspaceCount := 0, triggerMode := some TrigMode.clipboard },
        some { mode := GenMode.clipboard, prompt := "hello".toList, extra := none }) := by
  decide

/-- C1 (amended): when the master switch is off, keystroke-monitor trigger
events are dropped with no dispatch and no session-state change, but the
Clipboard and Screenshot hotkeys are not gated at all — their behavior is
identical with the master switch on or off. -/
theorem c1_master_gates_monitor_only :
    (∀ (liveMode : Bool) (st : OrchState) (t : MonitorTrigType) (b : List Char)
        (c : Nat) (lo : Option (List Char)),
      dispatchEvent false liveMode st (InEvent.monitorTrigger t b c lo) = (st, none)) ∧
    (∀ (liveMode : Bool) (st : OrchState) (clip buf : List Char) (rc : Nat),
      dispatchEvent false liveMode st (InEvent.clipboardHotkey clip buf rc) =
        dispatchEvent true liveMode st (InEvent.clipboardHotkey clip buf rc)) ∧
    (∀ (liveMode : Bool) (st : OrchState),
      dispatchEvent false liveMode st InEvent.screenshotHotkey =
        dispatchEvent true liveMode st InEvent.screenshotHotkey) := by
  refine ⟨?_, ?_, ?_⟩
  · intro lm st t b c lo
    simp [dispatchEvent, handleMonitorTrigger]
  · intro lm st clip buf rc
    rfl
  · intro lm st
    rfl

/-- C2, counterexample: a session that received exactly one streaming
chunk whose delta is empty is rejected by the timeout callback, although
the claim demands resolution with the partial accumulation whenever at
least one chunk was received.  The code tests the accumulated text for
nonemptiness, not the chunk count. -/
theorem c2_counterexample :
    (accumulateChunks (initialPendingRequest false) [[]]).text = [] ∧
    timeoutFire (some (accumulateChunks (initialPendingRequest false) [[]])) =
      (none, some AIOutcome.rejectedTimeout) := by
  decide

/-- C2 (amended): when the 60-second timeout fires while a request is
pending, the request resolves with the accumulated partial text when that
accumulation is nonempty and is rejected with a timeout error when the
accumulation is empty (no chunks, or only empty chunks); in both cases the
pending-request slot is cleared, and the callback is a no-op when nothing
is pending. -/
theorem c2_timeout_partial_or_reject (p : PendingAIRequest) :
    (p.text ≠ [] → timeoutFire (some p) = (none, some (AIOutcome.resolvedText p.text))) ∧
    (p.text = [] → timeoutFire (some p) = (none, some AIOutcome.rejectedTimeout)) ∧
    (timeoutFire (some p)).1 = none ∧
    timeoutFire none = (none, none) := by
  refine ⟨?_, ?_, rfl, rfl⟩
  · intro h
    simp [timeoutFire, h]
  · intro h
    simp [timeoutFire, h]

/-- Witness for C2: a request that accumulated the chunks `Hel` and `lo`
resolves at timeout with the partial text `Hello`. -/
theorem c2_witness :
    (accumulateChunks (initialPendingRequest false) ["Hel".toList, "lo".toList]).text ≠ [] ∧
    timeoutFire (some (accumulateChunks (initialPendingRequest false)
        ["Hel".toList, "lo".toList])) =
      (none, some (AIOutcome.resolvedText ("Hello".toList))) :=
  ⟨by decide, by
    rw [(c2_timeout_partial_or_reject _).1 (by decide)]
    decide⟩

/-- C3, counterexample: the Paste-hotkey path does not normalize.  For a
`lastGeneratedText` with leading spaces, the text the injector un-escapes
from the Paste-hotkey command argument is the raw text, which differs from
its normalization. -/
theorem c3_counterexample :
    unescapeInjector (pasteCommandArg ("  x".toList)) = some ("  x".toList) ∧
    normalizeTextForInjection ("  x".toList) = "x".toList ∧
    ("  x".toList : List Char) ≠ "x".toList := by
  decide

/-- C3 (amended): the auto-inject path normalizes exactly once per
injection — the text the injector recovers by un-escaping equals the single
normalization of the generated text — while the Paste-hotkey path hands
over `lastGeneratedText` with no normalization at all (stated for
quote-free text, on which the Paste escape round-trips). -/
theorem c3_normalize_once_auto_only :
    (∀ t : List Char, unescapeInjector (autoInjectCommandArg t) =
      some (normalizeTextForInjection t)) ∧
    (∀ t : List Char, '"' ∉ t → unescapeInjector (pasteCommandArg t) = some t) := by
  constructor
  · intro t
    exact unescape_escapeAutoInject _
  · intro t ht
    exact unescape_escapePasteHotkey t ht

/-- Witness for C3, at a concrete generated text with leading whitespace. -/
theorem c3_witness :
    ('"' ∉ ("  \nab".toList)) ∧
    unescapeInjector (autoInjectCommandArg ("  \nab".toList)) =
      some (normalizeTextForInjection ("  \nab".toList)) ∧
    unescapeInjector (pasteCommandArg ("  \nab".toList)) = some ("  \nab".toList) :=
  ⟨by decide, c3_normalize_once_auto_only.1 _,
    c3_normalize_once_auto_only.2 _ (by decide)⟩

/-- C4, counterexample: the Paste-hotkey escape turns a double quote into
a backslash-quote sequence, which is outside the injector's four-sequence
un-escape alphabet, so the un-escape rejects it instead of returning the
original string. -/
theorem c4_counterexample :
    unescapeInjector (escapePasteHotkey ['"']) = none ∧
    unescapeInjector (escapePasteHotkey ['"']) ≠ some ['"'] := by
  decide

/-- C4 (amended): the injector's un-escape of the four sequences is a left
inverse of the Orchestrator's auto-inject escape on every string, and of
the Paste-hotkey escape only on strings containing no double quote. -/
theorem c4_unescape_left_inverse :
    (∀ s : List Char, unescapeInjector (escapeAutoInject s) = some s) ∧
    (∀ s : List Char, '"' ∉ s → unescapeInjector (escapePasteHotkey s) = some s) :=
  ⟨unescape_escapeAutoInject, unescape_escapePasteHotkey⟩

/-- Witness for C4, at a string exercising all four escape sequences. -/
theorem c4_witness :
    ('"' ∉ ("a\\b\nc\rd\te".toList)) ∧
    unescapeInjector (escapeAutoInject ("a\\b\nc\rd\te".toList)) =
      some ("a\\b\nc\rd\te".toList) ∧
    unescapeInjector (escapePasteHotkey ("a\\b\nc\rd\te".toList)) =
      some ("a\\b\nc\rd\te".toList) :=
  ⟨by decide, c4_unescape_left_inverse.1 _, c4_unescape_left_inverse.2 _ (by decide)⟩

/-- C5: the Clipboard hotkey with nonempty (after trim) clipboard text
dispatches `clipboard_with_instruction` with the clipboard as prompt, the
trimmed buffer as instruction and the buffer's raw count as pending
backspace count when the trimmed buffer is nonempty; dispatches
`clipboard` with pending backspace count 0 when the trimmed buffer is
empty; and with blank clipboard text sends nothing and changes nothing. -/
theorem c5_clipboard_trigger (clip buf : List Char) (rc : Nat) (st : OrchState) :
    (jsTrim clip ≠ [] → jsTrim buf ≠ [] →
      clipTriggerStep clip buf rc st =
        ({ pendingBackspaceCount := rc, triggerMode := some TrigMode.clipboard },
          some { mode := GenMode.clipboardWithInstruction, prompt := clip,
                 extra := some (jsTrim buf) })) ∧
    (jsTrim clip ≠ [] → jsTrim buf = [] →
      clipTriggerStep clip buf rc st =
        ({ pendingBackspaceCount := 0, triggerMode := some TrigMode.clipboard },
          some { mode := GenMode.clipboard, prompt := clip, extra := none })) ∧
    (jsTrim clip = [] → clipTriggerStep clip buf rc st = (st, none)) := by
  refine ⟨?_, ?_, ?_⟩
  · intro hc hb
    have hcne : ¬(clip = [] ∨ jsTrim clip = []) := by
      rintro (h | h)
      · exact hc (by rw [h]; rfl)
      · exact hc h
    simp [clipTriggerStep, hcne, hb]
  · intro hc hb
    have hcne : ¬(clip = [] ∨ jsTrim clip = []) := by
      rintro (h | h)
      · exact hc (by rw [h]; rfl)
      · exact hc h
    simp [clipTriggerStep, hcne, hb]
  · intro hc
    simp [clipTriggerStep, hc]

/-- Witness for C5: clipboard `abc` with typed buffer ` hi ` (raw count 4)
dispatches `clipboard_with_instruction` with instruction `hi` and pending
backspace count 4. -/
theorem c5_witness :
    jsTrim ("abc".toList) ≠ [] ∧ jsTrim (" hi ".toList) ≠ [] ∧
    clipTriggerStep ("abc".toList) (" hi ".toList) 4
        { pendingBackspaceCount := 7, triggerMode := none } =
      ({ pendingBackspaceCount := 4, triggerMode := some TrigMode.clipboard },
        some { mode := GenMode.clipboardWithInstruction, prompt := "abc".toList,
               extra := some (jsTrim (" hi ".toList)) }) :=
  ⟨by decide, by decide,
    (c5_clipboard_trigger _ _ _ _).1 (by decide) (by decide)⟩

/-- C6, counterexample: when the injection subprocess exits nonzero and
the clipboard write throws, the failure resolved to the caller carries the
clipboard error's message (`boom`), not the original text (`hello`): the
claim that the error payload contains the original text fails. -/
theorem c6_counterexample :
    autoInjectFinish ("hello".toList) 1 (ClipWrite.throws "boom") true =
      ⟨some ⟨false, none, some "boom"⟩, none, false⟩ ∧
    ("boom" : String) ≠ "hello" := by
  decide

/-- C6 (amended): on nonzero exit the Orchestrator writes the text to the
clipboard and, when `robotjs` is available, synthesizes Ctrl+V, reporting
success with a clipboard-fallback (or clipboard-only) method; on a spawn
error it writes the clipboard and reports clipboard-fallback success
without a synthesized paste; only a throwing clipboard write reports
failure, and that failure carries the clipboard error's message — not the
original text — as its payload.  The `inject-text` IPC handler behaves the
same way with method name `clipboard` in the no-robot case. -/
theorem c6_injection_fallback (text : List Char) (code : Int) (m : String) :
    (code ≠ 0 → autoInjectFinish text code ClipWrite.ok true =
      ⟨some ⟨true, some "clipboard-fallback", none⟩, some text, true⟩) ∧
    (code ≠ 0 → autoInjectFinish text code ClipWrite.ok false =
      ⟨some ⟨true, some "clipboard-only", none⟩, some text, false⟩) ∧
    (code ≠ 0 → ∀ r : Bool, autoInjectFinish text code (ClipWrite.throws m) r =
      ⟨some ⟨false, none, some m⟩, none, false⟩) ∧
    (∀ (clip : ClipWrite) (r : Bool), autoInjectFinish text 0 clip r =
      ⟨some ⟨true, some "python-inject", none⟩, none, false⟩) ∧
    (autoInjectSpawnError text ClipWrite.ok =
      ⟨some ⟨true, some "clipboard-fallback", none⟩, some text, false⟩) ∧
    (injectTextFinish text true ClipWrite.ok true =
      ⟨some ⟨true, some "clipboard-fallback", none⟩, some text, true⟩) ∧
    (injectTextFinish text true (ClipWrite.throws m) true =
      ⟨some ⟨false, none, some m⟩, none, false⟩) := by
  refine ⟨?_, ?_, ?_, ?_, rfl, rfl, rfl⟩
  · intro h
    simp [autoInjectFinish, h]
  · intro h
    simp [autoInjectFinish, h]
  · intro h r
    simp [autoInjectFinish, h]
  · intro clip r
    simp [autoInjectFinish]

/-- Witness for C6: exit code 1 with a healthy clipboard and robot
available yields clipboard-fallback success with a synthesized paste. -/
theorem c6_witness :
    ((1 : Int) ≠ 0) ∧
    autoInjectFinish ("hi".toList) 1 ClipWrite.ok true =
      ⟨some ⟨true, some "clipboard-fallback", none⟩, some ("hi".toList), true⟩ :=
  ⟨by decide, (c6_injection_fallback ("hi".toList) 1 "oops").1 (by decide)⟩

/-- C7, counterexample: six consecutive nonzero exits all restart the
keystroke monitor with the same fixed 2000 ms delay — there is no
exponential backoff, no 30-second cap, and because the restart counter is
reset to 0 at every start, the nominal maximum of 5 consecutive restarts
never takes effect. -/
theorem c7_counterexample :
    monitorRun true [1, 1, 1, 1, 1, 1] { restartCount := 0 } =
      ({ restartCount := 0 }, [2000, 2000, 2000, 2000, 2000, 2000]) := by
  decide

/-- C7 (amended): every nonzero exit while the master switch is on
restarts the child after the fixed `MONITOR_RESTART_DELAY` of 2000 ms, for
arbitrarily long runs of consecutive failures (the restart counter is
reset on every start, so the cap of 5 never binds); the AI backend
restarts after a fixed 2000 ms with no counter at all; with the master
switch off neither child is restarted. -/
theorem c7_fixed_delay_unbounded_restarts :
    (∀ codes : List Int, (∀ c ∈ codes, c ≠ 0) →
      monitorRun true codes { restartCount := 0 } =
        ({ restartCount := 0 }, codes.map fun _ => MONITOR_RESTART_DELAY)) ∧
    (∀ code : Int, code ≠ 0 → aiBackendCloseStep true code = some 2000) ∧
    (∀ (code : Int) (s : SupervisorState), monitorCloseStep false code s = (s, none)) ∧
    (∀ code : Int, aiBackendCloseStep false code = none) := by
  refine ⟨?_, ?_, ?_, ?_⟩
  · intro codes h
    induction codes with
    | nil => rfl
    | cons c cs ih =>
      have hc : c ≠ 0 := h c (List.mem_cons_self c cs)
      have hcyc : monitorCrashCycle true c { restartCount := 0 } =
          ({ restartCount := 0 }, some MONITOR_RESTART_DELAY) := by
        simp [monitorCrashCycle, monitorCloseStep, monitorStartStep, hc,
          MONITOR_MAX_RESTARTS]
      simp only [monitorRun]
      rw [hcyc]
      simp only [List.map_cons]
      rw [ih (fun x hx => h x (List.mem_cons_of_mem c hx))]
  · intro code h
    simp [aiBackendCloseStep, h]
  · intro code s
    simp [monitorCloseStep]
  · intro code
    simp [aiBackendCloseStep]

/-- Witness for C7: two consecutive failing exits (codes 3 and -2) both
restart after 2000 ms and leave the counter at 0. -/
theorem c7_witness :
    (∀ c ∈ ([3, -2] : List Int), c ≠ 0) ∧
    monitorRun true [3, -2] { restartCount := 0 } =
      ({ restartCount := 0 }, [MONITOR_RESTART_DELAY, MONITOR_RESTART_DELAY]) :=
  ⟨by decide, by
    have h := c7_fixed_delay_unbounded_restarts.1 [3, -2] (by decide)
    simpa using h⟩

/-- C8: the Escape handler clears `lastGeneratedText` and the stored
explanation, zeroes the pending backspace count, clears the trigger mode
and hides the popup windows; it performs no injection; the user
preferences (humanize typing, auto-inject, master switch, live mode,
coding mode, ultra-human) are untouched; and a Paste hotkey press right
after it injects nothing. -/
theorem c8_escape_clears_session (st : AppState) :
    (escapeKeydownStep st).1.lastGeneratedText = [] ∧
    (escapeKeydownStep st).1.lastGeneratedExplanation = [] ∧
    (escapeKeydownStep st).1.pendingBackspaceCount = 0 ∧
    (escapeKeydownStep st).1.triggerMode = none ∧
    (escapeKeydownStep st).1.outputWindowVisible = false ∧
    (escapeKeydownStep st).1.explanationWindowVisible = false ∧
    (escapeKeydownStep st).1.humanizeTyping = st.humanizeTyping ∧
    (escapeKeydownStep st).1.autoInjectEnabled = st.autoInjectEnabled ∧
    (escapeKeydownStep st).1.masterEnabled = st.masterEnabled ∧
    (escapeKeydownStep st).1.liveModeEnabled = st.liveModeEnabled ∧
    (escapeKeydownStep st).1.codingModeEnabled = st.codingModeEnabled ∧
    (escapeKeydownStep st).1.ultraHumanEnabled = st.ultraHumanEnabled ∧
    (∀ t : List Char, UIAction.injectText t ∉ (escapeKeydownStep st).2) ∧
    pasteShortcutAction (escapeKeydownStep st).1 = none := by
  refine ⟨rfl, rfl, rfl, rfl, rfl, rfl, rfl, rfl, rfl, rfl, rfl, rfl, ?_, rfl⟩
  intro t hmem
  by_cases h : st.outputWindowVisible <;> simp [escapeKeydownStep, h] at hmem

/-- C9, counterexample: with a 100 by 50 work area, a 450 by 180 popup and
the pointer at the origin, the computed position is the work-area corner
but the popup crosses both the right and the bottom edge — the popup does
not stay within the work area in general. -/
theorem c9_counterexample :
    popupPosition 0 0 { x := 0, y := 0, width := 100, height := 50 } 450 180 = (0, 0) ∧
    ((0 : Int) + 450 > 0 + 100) ∧ ((0 : Int) + 180 > 0 + 50) := by
  decide

/-- C9 (amended): the popup is placed at `(pointer.x, pointer.y + 20)`
when nothing overflows and the pointer is inside the work area; crossing
the bottom flips it above the pointer and crossing the right edge shifts
it left, and the result is always clamped to `x ≥ workArea.x` and
`y ≥ workArea.y`; the popup stays entirely within the work area whenever
the pointer is inside it and the popup fits (width + 10 and height within
the work-area size). -/
theorem c9_popup_position (cx cy : Int) (wa : WorkArea) (pw ph : Int) :
    (wa.x ≤ (popupPosition cx cy wa pw ph).1 ∧
      wa.y ≤ (popupPosition cx cy wa pw ph).2) ∧
    (¬(cy + 20 + ph > wa.y + wa.height) → ¬(cx + pw > wa.x + wa.width) →
      wa.x ≤ cx → wa.y ≤ cy → popupPosition cx cy wa pw ph = (cx, cy + 20)) ∧
    (cy + 20 + ph > wa.y + wa.height →
      (popupPosition cx cy wa pw ph).2 = max wa.y (cy - ph - 5)) ∧
    (cx + pw > wa.x + wa.width →
      (popupPosition cx cy wa pw ph).1 = max wa.x (wa.x + wa.width - pw - 10)) ∧
    (wa.x ≤ cx → cx ≤ wa.x + wa.width → wa.y ≤ cy → cy ≤ wa.y + wa.height →
      pw + 10 ≤ wa.width → ph ≤ wa.height →
      (popupPosition cx cy wa pw ph).1 + pw ≤ wa.x + wa.width ∧
      (popupPosition cx cy wa pw ph).2 + ph ≤ wa.y + wa.height) := by
  refine ⟨?_, ?_, ?_, ?_, ?_⟩
  · constructor <;> (simp only [popupPosition]; exact le_max_left _ _)
  · intro h1 h2 h3 h4
    simp only [popupPosition, if_neg h1, if_neg h2]
    rw [max_eq_right h3, max_eq_right (by omega)]
  · intro h1
    simp only [popupPosition, if_pos h1]
  · intro h2
    simp only [popupPosition, if_pos h2]
  · intro h3 h4 h5 h6 h7 h8
    simp only [popupPosition]
    constructor
    · by_cases h2 : cx + pw > wa.x + wa.width
      · rw [if_pos h2]
        omega
      · rw [if_neg h2]
        omega
    · by_cases h1 : cy + 20 + ph > wa.y + wa.height
      · rw [if_pos h1]
        omega
      · rw [if_neg h1]
        omega

/-- Witness for C9: pointer (50, 10) in an 800 by 600 work area at the
origin, 450 by 180 popup: the popup stays within the work area. -/
theorem c9_witness :
    ((0 : Int) ≤ 50 ∧ (50 : Int) ≤ 0 + 800 ∧ (0 : Int) ≤ 10 ∧
      (10 : Int) ≤ 0 + 600 ∧ (450 : Int) + 10 ≤ 800 ∧ (180 : Int) ≤ 600) ∧
    (popupPosition 50 10 { x := 0, y := 0, width := 800, height := 600 } 450 180).1 +
        450 ≤ 0 + 800 ∧
    (popupPosition 50 10 { x := 0, y := 0, width := 800, height := 600 } 450 180).2 +
        180 ≤ 0 + 600 :=
  ⟨by decide,
    ((c9_popup_position 50 10 { x := 0, y := 0, width := 800, height := 600 }
        450 180).2.2.2.2 (by decide) (by decide) (by decide) (by decide)
        (by decide) (by decide)).1,
    ((c9_popup_position 50 10 { x := 0, y := 0, width := 800, height := 600 }
        450 180).2.2.2.2 (by decide) (by decide) (by decide) (by decide)
        (by decide) (by decide)).2⟩

/-- C10, counterexample: `normalizeTextForInjection` is not idempotent.
On the string space-space-newline-h-e-l-l-o, the first application trims
the whitespace-only first line to nothing, leaving a leading blank line;
the second application removes it. -/
theorem c10_counterexample :
    normalizeTextForInjection (normalizeTextForInjection ("  \nhello".toList)) ≠
      normalizeTextForInjection ("  \nhello".toList) := by
  decide

/-- C10 (amended): non-string inputs are returned unchanged; the
normalization is not idempotent in general, but it is idempotent on every
string that contains no carriage return and whose first and last lines,
after the leading and trailing newline trim, do not trim away to
nothing. -/
theorem c10_normalize_idempotent_restricted :
    (∀ tag : Nat, normalizeJS (JSVal.other tag) = JSVal.other tag) ∧
    (∀ s : List Char, '\r' ∉ s →
      jsTrimStart (firstLineOf (splitLines (stripNewlineEnds s))) ≠ [] →
      jsTrimStart (lastLineOf (splitLines (stripNewlineEnds s))) ≠ [] →
      normalizeJS (normalizeJS (JSVal.str s)) = normalizeJS (JSVal.str s)) := by
  constructor
  · intro tag
    rfl
  · intro s hr h1 h2
    simp only [normalizeJS]
    rw [normalize_idem_restricted s hr h1 h2]

/-- Witness for C10, at the two-line string `a` newline space `b`. -/
theorem c10_witness :
    ('\r' ∉ ("a\n b".toList)) ∧
    jsTrimStart (firstLineOf (splitLines (stripNewlineEnds ("a\n b".toList)))) ≠ [] ∧
    jsTrimStart (lastLineOf (splitLines (stripNewlineEnds ("a\n b".toList)))) ≠ [] ∧
    normalizeJS (normalizeJS (JSVal.str ("a\n b".toList))) =
      normalizeJS (JSVal.str ("a\n b".toList)) :=
  ⟨by decide, by decide, by decide,
    c10_normalize_idempotent_restricted.2 _ (by decide) (by decide) (by decide)⟩

end NXlayer
